import Mathlib

/-!
Verification of the quaternion neural-network primitives in
`quaternionops.py` (component getters, modulus/normalization, Hamilton
product, the custom quaternion linear forward/backward, and the weight
initializers).

Embedding conventions:

* A rank-2 tensor of shape `[B, N]` is a total function `ℕ → ℕ → ℚ`
  (indices outside the shape are irrelevant to every statement); a rank-3
  tensor of shape `[B, S, N]` is `ℕ → ℕ → ℕ → ℚ`.  Exact rationals model
  the numeric contents; the host library's `torch.sqrt` / `np.sqrt` /
  `np.cos` / `np.sin` primitives (an external boundary surface of this
  core) are passed in explicitly as functions `ℚ → ℚ`.
* `tensor.narrow(d, start, len)` becomes an index shift, `torch.cat` of
  four equal-width pieces becomes a four-way case split on the index, and
  matrix products become `Finset.range` sums with an explicit inner
  dimension.
* The `check_input` validation acts on shapes (`List ℕ`) and the checked
  entry points return `Except String`, mirroring the raised
  `RuntimeError`s.
* The numpy global random generator and `numpy.random.RandomState`
  objects are modelled as explicit stream-plus-position states threaded
  through the initializers.
-/

/-- Rank-2 tensor contents. -/
def Mat : Type := ℕ → ℕ → ℚ

/-- Rank-3 tensor contents. -/
def Mat3 : Type := ℕ → ℕ → ℕ → ℚ

/-- Bias / 1-D tensor contents. -/
def Vec : Type := ℕ → ℚ

/-- `check_input`: raises unless the rank is 2 or 3 and the last axis is
divisible by 4 (quaternionops.py lines 8-22). -/
def check_input (shape : List ℕ) : Except String Unit :=
  if ¬ (shape.length = 2 ∨ shape.length = 3) then
    Except.error ("quaternion linear accepts only input of dimension 2 or 3." ++
      " input.dim = " ++ toString shape.length)
  else
    let nb_hidden := shape.getLastD 0
    if nb_hidden % 4 ≠ 0 then
      Except.error ("Quaternion Tensors must be divisible by 4." ++
        " input.size()[1] = " ++ toString nb_hidden)
    else Except.ok ()

/-- `tensor.narrow(1, start, len)` on a rank-2 tensor: shift the last
index by `start` (the length lives at the shape level). -/
def narrow2 (start : ℕ) (t : Mat) : Mat := fun b j => t b (start + j)

/-- `tensor.narrow(2, start, len)` on a rank-3 tensor. -/
def narrow3 (start : ℕ) (t : Mat3) : Mat3 := fun b s j => t b s (start + j)

/-- `get_r` on a rank-2 tensor with last-axis length `N`:
`input.narrow(1, 0, N // 4)`. -/
def get_r (N : ℕ) (t : Mat) : Mat := narrow2 0 t

/-- `get_i` on a rank-2 tensor: `input.narrow(1, N // 4, N // 4)`. -/
def get_i (N : ℕ) (t : Mat) : Mat := narrow2 (N / 4) t

/-- `get_j` on a rank-2 tensor: `input.narrow(1, N // 2, N // 4)`. -/
def get_j (N : ℕ) (t : Mat) : Mat := narrow2 (N / 2) t

/-- `get_k` on a rank-2 tensor: `input.narrow(1, N - N // 4, N // 4)`. -/
def get_k (N : ℕ) (t : Mat) : Mat := narrow2 (N - N / 4) t

/-- `get_r` on a rank-3 tensor: `input.narrow(2, 0, N // 4)`. -/
def get_r3 (N : ℕ) (t : Mat3) : Mat3 := narrow3 0 t

/-- `get_i` on a rank-3 tensor. -/
def get_i3 (N : ℕ) (t : Mat3) : Mat3 := narrow3 (N / 4) t

/-- `get_j` on a rank-3 tensor. -/
def get_j3 (N : ℕ) (t : Mat3) : Mat3 := narrow3 (N / 2) t

/-- `get_k` on a rank-3 tensor. -/
def get_k3 (N : ℕ) (t : Mat3) : Mat3 := narrow3 (N - N / 4) t

/-- `torch.cat([a, b, c, d], dim=0)` for four rank-2 tensors with `F`
rows each. -/
def cat4dim0 (F : ℕ) (a b c d : Mat) : Mat := fun p q =>
  if p < F then a p q
  else if p < 2 * F then b (p - F) q
  else if p < 3 * F then c (p - 2 * F) q
  else d (p - 3 * F) q

/-- `torch.cat([a, b, c, d], dim=1)` for four rank-2 tensors with `H`
columns each. -/
def cat4dim1 (H : ℕ) (a b c d : Mat) : Mat := fun x j =>
  if j < H then a x j
  else if j < 2 * H then b x (j - H)
  else if j < 3 * H then c x (j - 2 * H)
  else d x (j - 3 * H)

/-- `torch.cat([a, b, c, d], dim=2)` for four rank-3 tensors with `H`
entries each along the last axis. -/
def cat4dim2 (H : ℕ) (a b c d : Mat3) : Mat3 := fun x s j =>
  if j < H then a x s j
  else if j < 2 * H then b x s (j - H)
  else if j < 3 * H then c x s (j - 2 * H)
  else d x s (j - 3 * H)

/-- Pointwise product of rank-2 tensors (`torch.mul`). -/
def mulT (a b : Mat) : Mat := fun x j => a x j * b x j

/-- Pointwise sum of rank-2 tensors. -/
def addT (a b : Mat) : Mat := fun x j => a x j + b x j

/-- Pointwise difference of rank-2 tensors. -/
def subT (a b : Mat) : Mat := fun x j => a x j - b x j

/-- Pointwise negation of a rank-2 tensor (the `-weight` arguments of
`torch.cat` in the kernel construction). -/
def negT (a : Mat) : Mat := fun x j => - a x j

/-! ### Pointwise evaluation lemmas for the four-way concatenations -/

theorem cat4dim1_apply_a {H j : ℕ} (h : j < H) (a b c d : Mat) (x : ℕ) :
    cat4dim1 H a b c d x j = a x j := by
  simp [cat4dim1, h]

theorem cat4dim1_apply_b {H j : ℕ} (h : j < H) (a b c d : Mat) (x : ℕ) :
    cat4dim1 H a b c d x (H + j) = b x j := by
  have h1 : ¬ (H + j < H) := by omega
  have h2 : H + j < 2 * H := by omega
  simp [cat4dim1, h1, h2]

theorem cat4dim1_apply_c {H j : ℕ} (h : j < H) (a b c d : Mat) (x : ℕ) :
    cat4dim1 H a b c d x (2 * H + j) = c x j := by
  have h1 : ¬ (2 * H + j < H) := by omega
  have h2 : ¬ (2 * H + j < 2 * H) := by omega
  have h3 : 2 * H + j < 3 * H := by omega
  have h4 : 2 * H + j - 2 * H = j := by omega
  simp [cat4dim1, h1, h2, h3, h4]

theorem cat4dim1_apply_d {H j : ℕ} (h : j < H) (a b c d : Mat) (x : ℕ) :
    cat4dim1 H a b c d x (3 * H + j) = d x j := by
  have h1 : ¬ (3 * H + j < H) := by omega
  have h2 : ¬ (3 * H + j < 2 * H) := by omega
  have h3 : ¬ (3 * H + j < 3 * H) := by omega
  have h4 : 3 * H + j - 3 * H = j := by omega
  simp [cat4dim1, h1, h2, h3, h4]

theorem cat4dim0_apply_a {F p : ℕ} (h : p < F) (a b c d : Mat) (q : ℕ) :
    cat4dim0 F a b c d p q = a p q := by
  simp [cat4dim0, h]

theorem cat4dim0_apply_b {F p : ℕ} (h : p < F) (a b c d : Mat) (q : ℕ) :
    cat4dim0 F a b c d (F + p) q = b p q := by
  have h1 : ¬ (F + p < F) := by omega
  have h2 : F + p < 2 * F := by omega
  simp [cat4dim0, h1, h2]

theorem cat4dim0_apply_c {F p : ℕ} (h : p < F) (a b c d : Mat) (q : ℕ) :
    cat4dim0 F a b c d (2 * F + p) q = c p q := by
  have h1 : ¬ (2 * F + p < F) := by omega
  have h2 : ¬ (2 * F + p < 2 * F) := by omega
  have h3 : 2 * F + p < 3 * F := by omega
  have h4 : 2 * F + p - 2 * F = p := by omega
  simp [cat4dim0, h1, h2, h3, h4]

theorem cat4dim0_apply_d {F p : ℕ} (h : p < F) (a b c d : Mat) (q : ℕ) :
    cat4dim0 F a b c d (3 * F + p) q = d p q := by
  have h1 : ¬ (3 * F + p < F) := by omega
  have h2 : ¬ (3 * F + p < 2 * F) := by omega
  have h3 : ¬ (3 * F + p < 3 * F) := by omega
  have h4 : 3 * F + p - 3 * F = p := by omega
  simp [cat4dim0, h1, h2, h3, h4]

/-! ### Claim C6: the four component getters partition the tensor -/

/-- Claim C6: for a quaternion tensor of rank 2 or rank 3 whose last axis
has length `4 * H`, concatenating `get_r`, `get_i`, `get_j`, `get_k`
along the last axis reconstructs the tensor exactly: the four slices are
contiguous, non-overlapping, of width `H`, at offsets `0`, `H`, `2H`,
`3H`. -/
theorem get_components_reconstruct (H : ℕ) (t : Mat) (t3 : Mat3)
    (b s j : ℕ) (hj : j < 4 * H) :
    cat4dim1 H (get_r (4 * H) t) (get_i (4 * H) t) (get_j (4 * H) t)
        (get_k (4 * H) t) b j = t b j ∧
    cat4dim2 H (get_r3 (4 * H) t3) (get_i3 (4 * H) t3) (get_j3 (4 * H) t3)
        (get_k3 (4 * H) t3) b s j = t3 b s j := by
  have h4 : 4 * H / 4 = H := by omega
  have h2 : 4 * H / 2 = 2 * H := by omega
  have h3 : 4 * H - 4 * H / 4 = 3 * H := by omega
  constructor
  · simp only [cat4dim1, get_r, get_i, get_j, get_k, narrow2, h4, h2, h3]
    split_ifs with c1 c2 c3
    · simp
    · congr 1; omega
    · congr 1; omega
    · congr 1; omega
  · simp only [cat4dim2, get_r3, get_i3, get_j3, get_k3, narrow3, h4, h2, h3]
    split_ifs with c1 c2 c3
    · simp
    · congr 1; omega
    · congr 1; omega
    · congr 1; omega

/-- Witness for C6 at a concrete rank-2/rank-3 tensor and index. -/
theorem get_components_reconstruct_witness :
    cat4dim1 2 (get_r 8 (fun b j => (b + j : ℚ)))
        (get_i 8 (fun b j => (b + j : ℚ))) (get_j 8 (fun b j => (b + j : ℚ)))
        (get_k 8 (fun b j => (b + j : ℚ))) 1 5 = (fun b j => (b + j : ℚ)) 1 5 :=
  (get_components_reconstruct 2 (fun b j => (b + j : ℚ))
    (fun b s j => (b + s + j : ℚ)) 1 0 5 (by omega)).1

/-! ### Hamilton product (quaternionops.py lines 247-287) -/

/-- `hamilton_product(q0, q1)` for rank-2 quaternion tensors with
last-axis length `N`: each output component multiplies `q0` elementwise
by a component-permuted copy of `q1` and combines the four permuted
channels with the fixed sign pattern of the quaternion multiplication
table. -/
def hamilton_product (N : ℕ) (q0 q1 : Mat) : Mat :=
  let q1_r := get_r N q1
  let q1_i := get_i N q1
  let q1_j := get_j N q1
  let q1_k := get_k N q1
  let r_base := mulT q0 q1
  let r := subT (subT (subT (get_r N r_base) (get_i N r_base)) (get_j N r_base)) (get_k N r_base)
  let i_base := mulT q0 (cat4dim1 (N / 4) q1_i q1_r q1_k q1_j)
  let i := subT (addT (addT (get_r N i_base) (get_i N i_base)) (get_j N i_base)) (get_k N i_base)
  let j_base := mulT q0 (cat4dim1 (N / 4) q1_j q1_k q1_r q1_i)
  let j := addT (addT (subT (get_r N j_base) (get_i N j_base)) (get_j N j_base)) (get_k N j_base)
  let k_base := mulT q0 (cat4dim1 (N / 4) q1_k q1_j q1_i q1_r)
  let k := addT (subT (addT (get_r N k_base) (get_i N k_base)) (get_j N k_base)) (get_k N k_base)
  cat4dim1 (N / 4) r i j k

/-- The r-component of the Hamilton product. -/
theorem hamilton_product_apply_r (H : ℕ) (q0 q1 : Mat) (b j : ℕ) (hj : j < H) :
    hamilton_product (4 * H) q0 q1 b j =
      q0 b j * q1 b j - q0 b (H + j) * q1 b (H + j) -
        q0 b (2 * H + j) * q1 b (2 * H + j) - q0 b (3 * H + j) * q1 b (3 * H + j) := by
  have h4 : 4 * H / 4 = H := by omega
  have h2 : 4 * H / 2 = 2 * H := by omega
  have h3 : 4 * H - H = 3 * H := by omega
  simp only [hamilton_product, subT, addT, mulT, get_r, get_i, get_j, get_k,
    narrow2, h4, h2, h3, zero_add, cat4dim1_apply_a hj, cat4dim1_apply_b hj,
    cat4dim1_apply_c hj, cat4dim1_apply_d hj]

/-- The i-component of the Hamilton product. -/
theorem hamilton_product_apply_i (H : ℕ) (q0 q1 : Mat) (b j : ℕ) (hj : j < H) :
    hamilton_product (4 * H) q0 q1 b (H + j) =
      q0 b j * q1 b (H + j) + q0 b (H + j) * q1 b j +
        q0 b (2 * H + j) * q1 b (3 * H + j) - q0 b (3 * H + j) * q1 b (2 * H + j) := by
  have h4 : 4 * H / 4 = H := by omega
  have h2 : 4 * H / 2 = 2 * H := by omega
  have h3 : 4 * H - H = 3 * H := by omega
  simp only [hamilton_product, subT, addT, mulT, get_r, get_i, get_j, get_k,
    narrow2, h4, h2, h3, zero_add, cat4dim1_apply_a hj, cat4dim1_apply_b hj,
    cat4dim1_apply_c hj, cat4dim1_apply_d hj]

/-- The j-component of the Hamilton product. -/
theorem hamilton_product_apply_j (H : ℕ) (q0 q1 : Mat) (b j : ℕ) (hj : j < H) :
    hamilton_product (4 * H) q0 q1 b (2 * H + j) =
      q0 b j * q1 b (2 * H + j) - q0 b (H + j) * q1 b (3 * H + j) +
        q0 b (2 * H + j) * q1 b j + q0 b (3 * H + j) * q1 b (H + j) := by
  have h4 : 4 * H / 4 = H := by omega
  have h2 : 4 * H / 2 = 2 * H := by omega
  have h3 : 4 * H - H = 3 * H := by omega
  simp only [hamilton_product, subT, addT, mulT, get_r, get_i, get_j, get_k,
    narrow2, h4, h2, h3, zero_add, cat4dim1_apply_a hj, cat4dim1_apply_b hj,
    cat4dim1_apply_c hj, cat4dim1_apply_d hj]

/-- The k-component of the Hamilton product. -/
theorem hamilton_product_apply_k (H : ℕ) (q0 q1 : Mat) (b j : ℕ) (hj : j < H) :
    hamilton_product (4 * H) q0 q1 b (3 * H + j) =
      q0 b j * q1 b (3 * H + j) + q0 b (H + j) * q1 b (2 * H + j) -
        q0 b (2 * H + j) * q1 b (H + j) + q0 b (3 * H + j) * q1 b j := by
  have h4 : 4 * H / 4 = H := by omega
  have h2 : 4 * H / 2 = 2 * H := by omega
  have h3 : 4 * H - H = 3 * H := by omega
  simp only [hamilton_product, subT, addT, mulT, get_r, get_i, get_j, get_k,
    narrow2, h4, h2, h3, zero_add, cat4dim1_apply_a hj, cat4dim1_apply_b hj,
    cat4dim1_apply_c hj, cat4dim1_apply_d hj]

/-- Claim C3: `hamilton_product(q0, q1)` on rank-2 quaternion tensors
with last-axis length `4 * H` is the concatenation `[r, i, j, k]` with
`r = r0*r1 - i0*i1 - j0*j1 - k0*k1`,
`i = r0*i1 + i0*r1 + j0*k1 - k0*j1`,
`j = r0*j1 - i0*k1 + j0*r1 + k0*i1`,
`k = r0*k1 + i0*j1 - j0*i1 + k0*r1`, all elementwise. -/
theorem hamilton_product_components (H : ℕ) (q0 q1 : Mat) (b j : ℕ)
    (hj : j < H) :
    hamilton_product (4 * H) q0 q1 b j =
      q0 b j * q1 b j - q0 b (H + j) * q1 b (H + j) -
        q0 b (2 * H + j) * q1 b (2 * H + j) - q0 b (3 * H + j) * q1 b (3 * H + j) ∧
    hamilton_product (4 * H) q0 q1 b (H + j) =
      q0 b j * q1 b (H + j) + q0 b (H + j) * q1 b j +
        q0 b (2 * H + j) * q1 b (3 * H + j) - q0 b (3 * H + j) * q1 b (2 * H + j) ∧
    hamilton_product (4 * H) q0 q1 b (2 * H + j) =
      q0 b j * q1 b (2 * H + j) - q0 b (H + j) * q1 b (3 * H + j) +
        q0 b (2 * H + j) * q1 b j + q0 b (3 * H + j) * q1 b (H + j) ∧
    hamilton_product (4 * H) q0 q1 b (3 * H + j) =
      q0 b j * q1 b (3 * H + j) + q0 b (H + j) * q1 b (2 * H + j) -
        q0 b (2 * H + j) * q1 b (H + j) + q0 b (3 * H + j) * q1 b j :=
  ⟨hamilton_product_apply_r H q0 q1 b j hj, hamilton_product_apply_i H q0 q1 b j hj,
    hamilton_product_apply_j H q0 q1 b j hj, hamilton_product_apply_k H q0 q1 b j hj⟩

/-- Witness for C3: the product of the unit quaternions i and j is k
(components at H = 1: [0,1,0,0] * [0,0,1,0] = [0,0,0,1]). -/
theorem hamilton_product_components_witness :
    hamilton_product 4 (fun _ j => if j = 1 then (1 : ℚ) else 0)
      (fun _ j => if j = 2 then (1 : ℚ) else 0) 0 0 =
      (fun (_ j : ℕ) => if j = 1 then (1 : ℚ) else 0) 0 0 *
          (fun (_ j : ℕ) => if j = 2 then (1 : ℚ) else 0) 0 0 -
        (fun (_ j : ℕ) => if j = 1 then (1 : ℚ) else 0) 0 1 *
          (fun (_ j : ℕ) => if j = 2 then (1 : ℚ) else 0) 0 1 -
        (fun (_ j : ℕ) => if j = 1 then (1 : ℚ) else 0) 0 2 *
          (fun (_ j : ℕ) => if j = 2 then (1 : ℚ) else 0) 0 2 -
        (fun (_ j : ℕ) => if j = 1 then (1 : ℚ) else 0) 0 3 *
          (fun (_ j : ℕ) => if j = 2 then (1 : ℚ) else 0) 0 3 :=
  (hamilton_product_components 1 (fun _ j => if j = 1 then (1 : ℚ) else 0)
    (fun _ j => if j = 2 then (1 : ℚ) else 0) 0 0 (by omega)).1

/-- The identity quaternion tensor: r-component all ones, i-, j-,
k-components all zeros (component width `H`). -/
def identity_quaternion (H : ℕ) : Mat := fun _ j => if j < H then 1 else 0

/-- Claim C9: right multiplication by the identity quaternion is the
identity: `hamilton_product(q, e) = q` elementwise. -/
theorem hamilton_product_identity (H : ℕ) (q : Mat) (b j : ℕ)
    (hj : j < 4 * H) :
    hamilton_product (4 * H) q (identity_quaternion H) b j = q b j := by
  have hsplit : j < H ∨ (∃ j', j' < H ∧ j = H + j') ∨
      (∃ j', j' < H ∧ j = 2 * H + j') ∨ (∃ j', j' < H ∧ j = 3 * H + j') := by
    rcases Nat.lt_or_ge j H with h | h
    · exact Or.inl h
    · rcases Nat.lt_or_ge j (2 * H) with h2 | h2
      · exact Or.inr (Or.inl ⟨j - H, by omega, by omega⟩)
      · rcases Nat.lt_or_ge j (3 * H) with h3 | h3
        · exact Or.inr (Or.inr (Or.inl ⟨j - 2 * H, by omega, by omega⟩))
        · exact Or.inr (Or.inr (Or.inr ⟨j - 3 * H, by omega, by omega⟩))
  rcases hsplit with h | ⟨j', hj', rfl⟩ | ⟨j', hj', rfl⟩ | ⟨j', hj', rfl⟩
  · rw [hamilton_product_apply_r H q _ b j h]
    simp only [identity_quaternion]
    rw [if_pos h, if_neg (by omega), if_neg (by omega), if_neg (by omega)]
    ring
  · rw [hamilton_product_apply_i H q _ b j' hj']
    simp only [identity_quaternion]
    rw [if_pos hj', if_neg (by omega), if_neg (by omega), if_neg (by omega)]
    ring
  · rw [hamilton_product_apply_j H q _ b j' hj']
    simp only [identity_quaternion]
    rw [if_pos hj', if_neg (by omega), if_neg (by omega), if_neg (by omega)]
    ring
  · rw [hamilton_product_apply_k H q _ b j' hj']
    simp only [identity_quaternion]
    rw [if_pos hj', if_neg (by omega), if_neg (by omega), if_neg (by omega)]
    ring

/-- Witness for C9 at a concrete tensor and index. -/
theorem hamilton_product_identity_witness :
    hamilton_product 8 (fun b j => (b + 2 * j : ℚ)) (identity_quaternion 2) 1 6 =
      (fun b j => (b + 2 * j : ℚ)) 1 6 :=
  hamilton_product_identity 2 (fun b j => (b + 2 * j : ℚ)) 1 6 (by omega)

/-! ### Modulus and normalization (quaternionops.py lines 60-79)

`torch.sqrt` is a primitive of the host tensor runtime (spec section 6);
it is passed in explicitly as a function `sq : ℚ → ℚ`, so every theorem
below holds for any implementation of the square root. -/

/-- `get_modulus(input, vector_form=True)` on a rank-2 tensor of shape
`[B, N]`: the elementwise `sqrt(r*r + i*i + j*j + k*k)`. -/
def get_modulus_vector_form (sq : ℚ → ℚ) (N : ℕ) (input : Mat) : Mat :=
  let r := get_r N input
  let i := get_i N input
  let j := get_j N input
  let k := get_k N input
  fun b jj => sq (mulT r r b jj + mulT i i b jj + mulT j j b jj + mulT k k b jj)

/-- `get_modulus(input, vector_form=False)` (the default) on a rank-2
tensor of shape `[B, N]`: `torch.sqrt((r*r + i*i + j*j + k*k).sum(dim=0))`,
a 1-D tensor of length `N / 4` reduced over the batch axis. -/
def get_modulus (sq : ℚ → ℚ) (B N : ℕ) (input : Mat) : Vec :=
  let r := get_r N input
  let i := get_i N input
  let j := get_j N input
  let k := get_k N input
  fun jj => sq (∑ b ∈ Finset.range B,
    (mulT r r b jj + mulT i i b jj + mulT j j b jj + mulT k k b jj))

/-- `data_modulus.repeat(1, 4)` followed by `.expand_as(input)` for a 1-D
modulus of length `H`: tile the length-`H` vector four times along the
last axis and broadcast it over the batch axis. -/
def repeat4_expand (H : ℕ) (m : Vec) : Mat := fun _ j => m (j % H)

/-- `get_normalized(input, eps)` on a rank-2 tensor of shape `[B, N]`:
divide by the batch-reduced modulus (tiled and broadcast) plus `eps`. -/
def get_normalized (sq : ℚ → ℚ) (B N : ℕ) (input : Mat) (eps : ℚ) : Mat :=
  let data_modulus := get_modulus sq B N input
  let data_modulus_repeated := repeat4_expand (N / 4) data_modulus
  fun b j => input b j / (data_modulus_repeated b j + eps)

/-- Claim C10: `get_normalized` divides every element by the same
batch-aggregated divisor for its feature position: the square root of the
sum over the batch axis of `r^2 + i^2 + j^2 + k^2` at that feature
position, plus `eps`, tiled across the four component segments and
broadcast over the batch — so the normalization of one batch row depends
on every other batch row (second conjunct: changing only row 1 changes
the normalized row 0). -/
theorem get_normalized_batch_divisor :
    (∀ (sq : ℚ → ℚ) (B H : ℕ) (input : Mat) (eps : ℚ) (b j : ℕ),
      get_normalized sq B (4 * H) input eps b j =
        input b j / (sq (∑ x ∈ Finset.range B,
          (input x (j % H) * input x (j % H) +
            input x (H + j % H) * input x (H + j % H) +
            input x (2 * H + j % H) * input x (2 * H + j % H) +
            input x (3 * H + j % H) * input x (3 * H + j % H))) + eps)) ∧
    get_normalized (fun x => x) 2 4
        (fun b j => if b = 0 then 1 else if j = 0 then 3 else 0) (1 / 10000) 0 0 ≠
      get_normalized (fun x => x) 2 4
        (fun b j => if b = 0 then 1 else 0) (1 / 10000) 0 0 := by
  constructor
  · intro sq B H input eps b j
    have h4 : 4 * H / 4 = H := by omega
    have h2 : 4 * H / 2 = 2 * H := by omega
    have h3 : 4 * H - H = 3 * H := by omega
    simp only [get_normalized, get_modulus, repeat4_expand, mulT, get_r, get_i,
      get_j, get_k, narrow2, h4, h2, h3, zero_add]
  · norm_num [get_normalized, get_modulus, repeat4_expand, mulT, get_r, get_i,
      get_j, get_k, narrow2, Finset.sum_range_succ]

/-! ### Summation helpers for block matrix products -/

theorem sum_range_add_q (f : ℕ → ℚ) (m n : ℕ) :
    ∑ p ∈ Finset.range (m + n), f p =
      (∑ p ∈ Finset.range m, f p) + ∑ p ∈ Finset.range n, f (m + p) := by
  induction n with
  | zero => simp
  | succ n ih =>
      rw [show m + (n + 1) = (m + n) + 1 from by omega, Finset.sum_range_succ,
        Finset.sum_range_succ, ih, add_assoc]

theorem sum_range_four (f : ℕ → ℚ) (n : ℕ) :
    ∑ p ∈ Finset.range (4 * n), f p =
      (∑ p ∈ Finset.range n, f p) + (∑ p ∈ Finset.range n, f (n + p)) +
        (∑ p ∈ Finset.range n, f (2 * n + p)) +
        ∑ p ∈ Finset.range n, f (3 * n + p) := by
  have h : (4 : ℕ) * n = n + (n + (n + n)) := by ring
  rw [h, sum_range_add_q, sum_range_add_q, sum_range_add_q]
  simp only [show ∀ p, n + (n + p) = 2 * n + p from fun p => by ring,
    show ∀ p, n + (2 * n + p) = 3 * n + p from fun p => by ring]
  ring

/-! ### Quaternion linear operator (quaternionops.py lines 81-139) -/

/-- The block-encoding matrix `cat_kernels_4_quaternion` exactly as the
code builds it (lines 122-126): each sign-pattern list is concatenated
along `dim=0` (vertically, giving a `(4F, G)` block column) and the four
results are concatenated along `dim=1` into a `(4F, 4G)` matrix. -/
def cat_kernels_4_quaternion (F G : ℕ) (r_weight i_weight j_weight k_weight : Mat) : Mat :=
  let cat_kernels_4_r := cat4dim0 F r_weight (negT i_weight) (negT j_weight) (negT k_weight)
  let cat_kernels_4_i := cat4dim0 F i_weight r_weight (negT k_weight) j_weight
  let cat_kernels_4_j := cat4dim0 F j_weight k_weight r_weight (negT i_weight)
  let cat_kernels_4_k := cat4dim0 F k_weight (negT j_weight) i_weight r_weight
  cat4dim1 G cat_kernels_4_r cat_kernels_4_i cat_kernels_4_j cat_kernels_4_k

/-- Modelled from the spec's words, for refinement comparison only (spec
section 4.4): `row_r = [r, -i, -j, -k]`, `row_i = [i, r, -k, j]`,
`row_j = [j, k, r, -i]`, `row_k = [k, -j, i, r]`, each row horizontally
concatenated, the four rows vertically stacked. -/
def cat_kernels_4_quaternion_spec (F G : ℕ) (r_weight i_weight j_weight k_weight : Mat) : Mat :=
  cat4dim0 F (cat4dim1 G r_weight (negT i_weight) (negT j_weight) (negT k_weight))
    (cat4dim1 G i_weight r_weight (negT k_weight) j_weight)
    (cat4dim1 G j_weight k_weight r_weight (negT i_weight))
    (cat4dim1 G k_weight (negT j_weight) i_weight r_weight)

/-- `torch.mm(A, B)` with inner dimension `K`. -/
def mmT (K : ℕ) (A B : Mat) : Mat := fun b j => ∑ p ∈ Finset.range K, A b p * B p j

/-- `torch.addmm(bias, A, B)` with inner dimension `K`: `bias + A @ B`
with the bias broadcast across the batch rows. -/
def addmmT (K : ℕ) (bias : Vec) (A B : Mat) : Mat :=
  fun b j => bias j + ∑ p ∈ Finset.range K, A b p * B p j

/-- `torch.matmul(A, B)` for a rank-3 `A` and rank-2 `B` (batched matrix
product) with inner dimension `K`. -/
def matmul3 (K : ℕ) (A : Mat3) (B : Mat) : Mat3 :=
  fun b s j => ∑ p ∈ Finset.range K, A b s p * B p j

/-- `QuaternionLinearFunction.forward` on a rank-2 input of shape
`[B, 4F]` (quaternionops.py lines 119-133): build the block-encoding
matrix and apply `addmm` / `mm` depending on the optional bias. -/
def QuaternionLinearFunction.forward2 (F G : ℕ)
    (input r_weight i_weight j_weight k_weight : Mat) (bias : Option Vec) : Mat :=
  let ck := cat_kernels_4_quaternion F G r_weight i_weight j_weight k_weight
  match bias with
  | some bv => addmmT (4 * F) bv input ck
  | none => mmT (4 * F) input ck

/-- `QuaternionLinearFunction.forward` on a rank-3 input of shape
`[B, S, 4F]` (lines 134-139): `matmul` plus a broadcast bias. -/
def QuaternionLinearFunction.forward3 (F G : ℕ) (input : Mat3)
    (r_weight i_weight j_weight k_weight : Mat) (bias : Option Vec) : Mat3 :=
  let ck := cat_kernels_4_quaternion F G r_weight i_weight j_weight k_weight
  let output := matmul3 (4 * F) input ck
  match bias with
  | some bv => fun b s j => output b s j + bv j
  | none => output

/-! ### Column-block evaluation of the code's encoding matrix -/

theorem kernel_col_r (F G : ℕ) (r i j k : Mat) (v : Vec) {g : ℕ} (hg : g < G) :
    ∑ p ∈ Finset.range (4 * F),
        v p * cat_kernels_4_quaternion F G r i j k p g =
      ∑ f ∈ Finset.range F,
        (v f * r f g - v (F + f) * i f g - v (2 * F + f) * j f g -
          v (3 * F + f) * k f g) := by
  rw [sum_range_four (fun p => v p * cat_kernels_4_quaternion F G r i j k p g) F]
  have hr : ∀ p ∈ Finset.range F,
      v p * cat_kernels_4_quaternion F G r i j k p g +
        v (F + p) * cat_kernels_4_quaternion F G r i j k (F + p) g +
        v (2 * F + p) * cat_kernels_4_quaternion F G r i j k (2 * F + p) g +
        v (3 * F + p) * cat_kernels_4_quaternion F G r i j k (3 * F + p) g =
      v p * r p g - v (F + p) * i p g - v (2 * F + p) * j p g -
        v (3 * F + p) * k p g := by
    intro p hp
    have hp' : p < F := Finset.mem_range.mp hp
    simp only [cat_kernels_4_quaternion, cat4dim1_apply_a hg,
      cat4dim0_apply_a hp', cat4dim0_apply_b hp', cat4dim0_apply_c hp',
      cat4dim0_apply_d hp', negT]
    ring
  calc (∑ p ∈ Finset.range F, v p * cat_kernels_4_quaternion F G r i j k p g) +
        (∑ p ∈ Finset.range F, v (F + p) * cat_kernels_4_quaternion F G r i j k (F + p) g) +
        (∑ p ∈ Finset.range F, v (2 * F + p) * cat_kernels_4_quaternion F G r i j k (2 * F + p) g) +
        ∑ p ∈ Finset.range F, v (3 * F + p) * cat_kernels_4_quaternion F G r i j k (3 * F + p) g
      = ∑ p ∈ Finset.range F,
          (v p * cat_kernels_4_quaternion F G r i j k p g +
            v (F + p) * cat_kernels_4_quaternion F G r i j k (F + p) g +
            v (2 * F + p) * cat_kernels_4_quaternion F G r i j k (2 * F + p) g +
            v (3 * F + p) * cat_kernels_4_quaternion F G r i j k (3 * F + p) g) := by
        simp [Finset.sum_add_distrib]
    _ = ∑ f ∈ Finset.range F,
          (v f * r f g - v (F + f) * i f g - v (2 * F + f) * j f g -
            v (3 * F + f) * k f g) := Finset.sum_congr rfl hr

theorem kernel_col_i (F G : ℕ) (r i j k : Mat) (v : Vec) {g : ℕ} (hg : g < G) :
    ∑ p ∈ Finset.range (4 * F),
        v p * cat_kernels_4_quaternion F G r i j k p (G + g) =
      ∑ f ∈ Finset.range F,
        (v f * i f g + v (F + f) * r f g - v (2 * F + f) * k f g +
          v (3 * F + f) * j f g) := by
  rw [sum_range_four (fun p => v p * cat_kernels_4_quaternion F G r i j k p (G + g)) F]
  have hr : ∀ p ∈ Finset.range F,
      v p * cat_kernels_4_quaternion F G r i j k p (G + g) +
        v (F + p) * cat_kernels_4_quaternion F G r i j k (F + p) (G + g) +
        v (2 * F + p) * cat_kernels_4_quaternion F G r i j k (2 * F + p) (G + g) +
        v (3 * F + p) * cat_kernels_4_quaternion F G r i j k (3 * F + p) (G + g) =
      v p * i p g + v (F + p) * r p g - v (2 * F + p) * k p g +
        v (3 * F + p) * j p g := by
    intro p hp
    have hp' : p < F := Finset.mem_range.mp hp
    simp only [cat_kernels_4_quaternion, cat4dim1_apply_b hg,
      cat4dim0_apply_a hp', cat4dim0_apply_b hp', cat4dim0_apply_c hp',
      cat4dim0_apply_d hp', negT]
    ring
  calc (∑ p ∈ Finset.range F, v p * cat_kernels_4_quaternion F G r i j k p (G + g)) +
        (∑ p ∈ Finset.range F, v (F + p) * cat_kernels_4_quaternion F G r i j k (F + p) (G + g)) +
        (∑ p ∈ Finset.range F, v (2 * F + p) * cat_kernels_4_quaternion F G r i j k (2 * F + p) (G + g)) +
        ∑ p ∈ Finset.range F, v (3 * F + p) * cat_kernels_4_quaternion F G r i j k (3 * F + p) (G + g)
      = ∑ p ∈ Finset.range F,
          (v p * cat_kernels_4_quaternion F G r i j k p (G + g) +
            v (F + p) * cat_kernels_4_quaternion F G r i j k (F + p) (G + g) +
            v (2 * F + p) * cat_kernels_4_quaternion F G r i j k (2 * F + p) (G + g) +
            v (3 * F + p) * cat_kernels_4_quaternion F G r i j k (3 * F + p) (G + g)) := by
        simp [Finset.sum_add_distrib]
    _ = _ := Finset.sum_congr rfl hr

theorem kernel_col_j (F G : ℕ) (r i j k : Mat) (v : Vec) {g : ℕ} (hg : g < G) :
    ∑ p ∈ Finset.range (4 * F),
        v p * cat_kernels_4_quaternion F G r i j k p (2 * G + g) =
      ∑ f ∈ Finset.range F,
        (v f * j f g + v (F + f) * k f g + v (2 * F + f) * r f g -
          v (3 * F + f) * i f g) := by
  rw [sum_range_four (fun p => v p * cat_kernels_4_quaternion F G r i j k p (2 * G + g)) F]
  have hr : ∀ p ∈ Finset.range F,
      v p * cat_kernels_4_quaternion F G r i j k p (2 * G + g) +
        v (F + p) * cat_kernels_4_quaternion F G r i j k (F + p) (2 * G + g) +
        v (2 * F + p) * cat_kernels_4_quaternion F G r i j k (2 * F + p) (2 * G + g) +
        v (3 * F + p) * cat_kernels_4_quaternion F G r i j k (3 * F + p) (2 * G + g) =
      v p * j p g + v (F + p) * k p g + v (2 * F + p) * r p g -
        v (3 * F + p) * i p g := by
    intro p hp
    have hp' : p < F := Finset.mem_range.mp hp
    simp only [cat_kernels_4_quaternion, cat4dim1_apply_c hg,
      cat4dim0_apply_a hp', cat4dim0_apply_b hp', cat4dim0_apply_c hp',
      cat4dim0_apply_d hp', negT]
    ring
  calc (∑ p ∈ Finset.range F, v p * cat_kernels_4_quaternion F G r i j k p (2 * G + g)) +
        (∑ p ∈ Finset.range F, v (F + p) * cat_kernels_4_quaternion F G r i j k (F + p) (2 * G + g)) +
        (∑ p ∈ Finset.range F, v (2 * F + p) * cat_kernels_4_quaternion F G r i j k (2 * F + p) (2 * G + g)) +
        ∑ p ∈ Finset.range F, v (3 * F + p) * cat_kernels_4_quaternion F G r i j k (3 * F + p) (2 * G + g)
      = ∑ p ∈ Finset.range F,
          (v p * cat_kernels_4_quaternion F G r i j k p (2 * G + g) +
            v (F + p) * cat_kernels_4_quaternion F G r i j k (F + p) (2 * G + g) +
            v (2 * F + p) * cat_kernels_4_quaternion F G r i j k (2 * F + p) (2 * G + g) +
            v (3 * F + p) * cat_kernels_4_quaternion F G r i j k (3 * F + p) (2 * G + g)) := by
        simp [Finset.sum_add_distrib]
    _ = _ := Finset.sum_congr rfl hr

theorem kernel_col_k (F G : ℕ) (r i j k : Mat) (v : Vec) {g : ℕ} (hg : g < G) :
    ∑ p ∈ Finset.range (4 * F),
        v p * cat_kernels_4_quaternion F G r i j k p (3 * G + g) =
      ∑ f ∈ Finset.range F,
        (v f * k f g - v (F + f) * j f g + v (2 * F + f) * i f g +
          v (3 * F + f) * r f g) := by
  rw [sum_range_four (fun p => v p * cat_kernels_4_quaternion F G r i j k p (3 * G + g)) F]
  have hr : ∀ p ∈ Finset.range F,
      v p * cat_kernels_4_quaternion F G r i j k p (3 * G + g) +
        v (F + p) * cat_kernels_4_quaternion F G r i j k (F + p) (3 * G + g) +
        v (2 * F + p) * cat_kernels_4_quaternion F G r i j k (2 * F + p) (3 * G + g) +
        v (3 * F + p) * cat_kernels_4_quaternion F G r i j k (3 * F + p) (3 * G + g) =
      v p * k p g - v (F + p) * j p g + v (2 * F + p) * i p g +
        v (3 * F + p) * r p g := by
    intro p hp
    have hp' : p < F := Finset.mem_range.mp hp
    simp only [cat_kernels_4_quaternion, cat4dim1_apply_d hg,
      cat4dim0_apply_a hp', cat4dim0_apply_b hp', cat4dim0_apply_c hp',
      cat4dim0_apply_d hp', negT]
    ring
  calc (∑ p ∈ Finset.range F, v p * cat_kernels_4_quaternion F G r i j k p (3 * G + g)) +
        (∑ p ∈ Finset.range F, v (F + p) * cat_kernels_4_quaternion F G r i j k (F + p) (3 * G + g)) +
        (∑ p ∈ Finset.range F, v (2 * F + p) * cat_kernels_4_quaternion F G r i j k (2 * F + p) (3 * G + g)) +
        ∑ p ∈ Finset.range F, v (3 * F + p) * cat_kernels_4_quaternion F G r i j k (3 * F + p) (3 * G + g)
      = ∑ p ∈ Finset.range F,
          (v p * cat_kernels_4_quaternion F G r i j k p (3 * G + g) +
            v (F + p) * cat_kernels_4_quaternion F G r i j k (F + p) (3 * G + g) +
            v (2 * F + p) * cat_kernels_4_quaternion F G r i j k (2 * F + p) (3 * G + g) +
            v (3 * F + p) * cat_kernels_4_quaternion F G r i j k (3 * F + p) (3 * G + g)) := by
        simp [Finset.sum_add_distrib]
    _ = _ := Finset.sum_congr rfl hr

/-- The bias contribution of an optional bias at an output index. -/
def bias_at (bias : Option Vec) (idx : ℕ) : ℚ :=
  match bias with
  | some bv => bv idx
  | none => 0

/-- Claim C1 (counterexample): the spec's literal construction — each
sign-pattern row horizontally concatenated and the rows vertically
stacked (`cat_kernels_4_quaternion_spec`) — does not describe the code:
with `F = G = 1`, `r = j = k = 0`, `i = 1` and input `[1, 0, 0, 0]`, the
code's forward returns `1` at output index 1 while the spec's layout
predicts `-1`. -/
theorem forward_spec_row_layout_cex :
    QuaternionLinearFunction.forward2 1 1 (fun _ p => if p = 0 then (1 : ℚ) else 0)
        (fun _ _ => 0) (fun _ _ => 1) (fun _ _ => 0) (fun _ _ => 0) none 0 1 ≠
      mmT 4 (fun _ p => if p = 0 then (1 : ℚ) else 0)
        (cat_kernels_4_quaternion_spec 1 1 (fun _ _ => 0) (fun _ _ => 1)
          (fun _ _ => 0) (fun _ _ => 0)) 0 1 := by
  norm_num [QuaternionLinearFunction.forward2, mmT, cat_kernels_4_quaternion,
    cat_kernels_4_quaternion_spec, cat4dim0, cat4dim1, negT, Finset.sum_range_succ]

/-- Claim C1 (amended): for every rank-2 or rank-3 quaternion input, four
equal-shape `[F, G]` weight blocks and optional bias, the forward output
is input times the code's block-encoding matrix plus the broadcast bias,
where each sign-pattern row of the spec is concatenated *vertically*
(dim 0) to form a column block and the four column blocks are stacked
horizontally — the block transpose of the layout the claim states.
Spelled out per output segment (`g < G`, batch row `b`, sequence
position `s`): the r/i/j/k output columns combine the input segments
with the sign patterns `(r, -i, -j, -k)`, `(i, r, -k, j)`,
`(j, k, r, -i)`, `(k, -j, i, r)` respectively. -/
theorem forward_encoding_columns (F G : ℕ) (input : Mat) (input3 : Mat3)
    (r i j k : Mat) (bias : Option Vec) (b s g : ℕ) (hg : g < G) :
    (QuaternionLinearFunction.forward2 F G input r i j k bias b g =
      bias_at bias g + ∑ f ∈ Finset.range F,
        (input b f * r f g - input b (F + f) * i f g -
          input b (2 * F + f) * j f g - input b (3 * F + f) * k f g)) ∧
    (QuaternionLinearFunction.forward2 F G input r i j k bias b (G + g) =
      bias_at bias (G + g) + ∑ f ∈ Finset.range F,
        (input b f * i f g + input b (F + f) * r f g -
          input b (2 * F + f) * k f g + input b (3 * F + f) * j f g)) ∧
    (QuaternionLinearFunction.forward2 F G input r i j k bias b (2 * G + g) =
      bias_at bias (2 * G + g) + ∑ f ∈ Finset.range F,
        (input b f * j f g + input b (F + f) * k f g +
          input b (2 * F + f) * r f g - input b (3 * F + f) * i f g)) ∧
    (QuaternionLinearFunction.forward2 F G input r i j k bias b (3 * G + g) =
      bias_at bias (3 * G + g) + ∑ f ∈ Finset.range F,
        (input b f * k f g - input b (F + f) * j f g +
          input b (2 * F + f) * i f g + input b (3 * F + f) * r f g)) ∧
    (QuaternionLinearFunction.forward3 F G input3 r i j k bias b s g =
      bias_at bias g + ∑ f ∈ Finset.range F,
        (input3 b s f * r f g - input3 b s (F + f) * i f g -
          input3 b s (2 * F + f) * j f g - input3 b s (3 * F + f) * k f g)) ∧
    (QuaternionLinearFunction.forward3 F G input3 r i j k bias b s (G + g) =
      bias_at bias (G + g) + ∑ f ∈ Finset.range F,
        (input3 b s f * i f g + input3 b s (F + f) * r f g -
          input3 b s (2 * F + f) * k f g + input3 b s (3 * F + f) * j f g)) ∧
    (QuaternionLinearFunction.forward3 F G input3 r i j k bias b s (2 * G + g) =
      bias_at bias (2 * G + g) + ∑ f ∈ Finset.range F,
        (input3 b s f * j f g + input3 b s (F + f) * k f g +
          input3 b s (2 * F + f) * r f g - input3 b s (3 * F + f) * i f g)) ∧
    (QuaternionLinearFunction.forward3 F G input3 r i j k bias b s (3 * G + g) =
      bias_at bias (3 * G + g) + ∑ f ∈ Finset.range F,
        (input3 b s f * k f g - input3 b s (F + f) * j f g +
          input3 b s (2 * F + f) * i f g + input3 b s (3 * F + f) * r f g)) := by
  cases bias with
  | none =>
      refine ⟨?_, ?_, ?_, ?_, ?_, ?_, ?_, ?_⟩ <;>
        simp only [QuaternionLinearFunction.forward2,
          QuaternionLinearFunction.forward3, mmT, matmul3, bias_at, zero_add]
      · exact kernel_col_r F G r i j k (input b) hg
      · exact kernel_col_i F G r i j k (input b) hg
      · exact kernel_col_j F G r i j k (input b) hg
      · exact kernel_col_k F G r i j k (input b) hg
      · exact kernel_col_r F G r i j k (input3 b s) hg
      · exact kernel_col_i F G r i j k (input3 b s) hg
      · exact kernel_col_j F G r i j k (input3 b s) hg
      · exact kernel_col_k F G r i j k (input3 b s) hg
  | some bv =>
      refine ⟨?_, ?_, ?_, ?_, ?_, ?_, ?_, ?_⟩ <;>
        simp only [QuaternionLinearFunction.forward2,
          QuaternionLinearFunction.forward3, addmmT, matmul3, bias_at]
      · rw [kernel_col_r F G r i j k (input b) hg]
      · rw [kernel_col_i F G r i j k (input b) hg]
      · rw [kernel_col_j F G r i j k (input b) hg]
      · rw [kernel_col_k F G r i j k (input b) hg]
      · rw [kernel_col_r F G r i j k (input3 b s) hg]; ring
      · rw [kernel_col_i F G r i j k (input3 b s) hg]; ring
      · rw [kernel_col_j F G r i j k (input3 b s) hg]; ring
      · rw [kernel_col_k F G r i j k (input3 b s) hg]; ring

/-- Concrete example weight block. -/
def wEx : Mat := fun p q => (p + q + 1 : ℚ)

/-- Concrete example rank-2 input. -/
def inEx2 : Mat := fun b p => (b + p : ℚ)

/-- Concrete example rank-3 input. -/
def inEx3 : Mat3 := fun b s p => (b + s + p : ℚ)

/-- Concrete example bias. -/
def biasEx : Vec := fun n => (n : ℚ)

/-- Witness for the amended C1 at `F = G = 1`. -/
theorem forward_encoding_columns_witness :
    QuaternionLinearFunction.forward2 1 1 inEx2 wEx wEx wEx wEx (some biasEx) 0 0 =
      bias_at (some biasEx) 0 + ∑ f ∈ Finset.range 1,
        (inEx2 0 f * wEx f 0 - inEx2 0 (1 + f) * wEx f 0 -
          inEx2 0 (2 * 1 + f) * wEx f 0 - inEx2 0 (3 * 1 + f) * wEx f 0) :=
  (forward_encoding_columns 1 1 inEx2 inEx3 wEx wEx wEx wEx (some biasEx) 0 0 0
    (by norm_num)).1

/-! ### Backward pass (quaternionops.py lines 142-191) -/

/-- The `ctx.needs_input_grad` tuple: one flag per forward argument
(input, r_weight, i_weight, j_weight, k_weight, bias). -/
structure NeedsGrad where
  input : Bool
  r_weight : Bool
  i_weight : Bool
  j_weight : Bool
  k_weight : Bool
  bias : Bool

/-- The 6-tuple returned by `QuaternionLinearFunction.backward`; `none`
models the Python `None`. -/
structure BackwardResult where
  grad_input : Option Mat
  grad_weight_r : Option Mat
  grad_weight_i : Option Mat
  grad_weight_j : Option Mat
  grad_weight_k : Option Mat
  grad_bias : Option Vec

/-- `tensor.permute(1, 0)` on a rank-2 tensor. -/
def permute10 (t : Mat) : Mat := fun a b => t b a

/-- `tensor.narrow(0, start, len)` on a rank-2 tensor. -/
def narrowRow (start : ℕ) (t : Mat) : Mat := fun p q => t (start + p) q

/-- `QuaternionLinearFunction.backward` for a rank-2 saved context:
input of shape `[B, 4F]`, weight blocks of shape `[F, G]`, grad_output of
shape `[B, 4G]`.  Follows the source line by line: the transposed
encoding rebuilt from the weights, `input_mat` (components concatenated
along dim 0 then dim 1), `grad_mat` (components concatenated along dim 1
then dim 0), then one `if` per `needs_input_grad` index the code
consults: index 0 for the input, index 1 for all four weight blocks,
index 5 for the bias (`grad_output.sum(0).squeeze(0)`). -/
def QuaternionLinearFunction.backward (F G B : ℕ)
    (input r_weight i_weight j_weight k_weight : Mat) (needs : NeedsGrad)
    (grad_output : Mat) : BackwardResult :=
  let input_r := cat4dim0 F r_weight (negT i_weight) (negT j_weight) (negT k_weight)
  let input_i := cat4dim0 F i_weight r_weight (negT k_weight) j_weight
  let input_j := cat4dim0 F j_weight k_weight r_weight (negT i_weight)
  let input_k := cat4dim0 F k_weight (negT j_weight) i_weight r_weight
  let cat_kernels_4_quaternion_T :=
    permute10 (cat4dim1 G input_r input_i input_j input_k)
  let r := get_r (4 * F) input
  let i := get_i (4 * F) input
  let j := get_j (4 * F) input
  let k := get_k (4 * F) input
  let input_r := cat4dim0 B r (negT i) (negT j) (negT k)
  let input_i := cat4dim0 B i r (negT k) j
  let input_j := cat4dim0 B j k r (negT i)
  let input_k := cat4dim0 B k (negT j) i r
  let input_mat := cat4dim1 F input_r input_i input_j input_k
  let r := get_r (4 * G) grad_output
  let i := get_i (4 * G) grad_output
  let j := get_j (4 * G) grad_output
  let k := get_k (4 * G) grad_output
  let input_r := cat4dim1 G r i j k
  let input_i := cat4dim1 G (negT i) r k (negT j)
  let input_j := cat4dim1 G (negT j) (negT k) r i
  let input_k := cat4dim1 G (negT k) j (negT i) r
  let grad_mat := cat4dim0 B input_r input_i input_j input_k
  let grad_input :=
    if needs.input then some (mmT (4 * G) grad_output cat_kernels_4_quaternion_T)
    else none
  let grad_weight := permute10 (mmT (4 * B) (permute10 grad_mat) input_mat)
  let unit_size_y := G
  let gw := narrowRow 0 grad_weight
  let grad_weight_r := if needs.r_weight then some (narrow2 0 gw) else none
  let grad_weight_i := if needs.r_weight then some (narrow2 unit_size_y gw) else none
  let grad_weight_j := if needs.r_weight then some (narrow2 (unit_size_y * 2) gw) else none
  let grad_weight_k := if needs.r_weight then some (narrow2 (unit_size_y * 3) gw) else none
  let grad_bias :=
    if needs.bias then some (fun jj => ∑ x ∈ Finset.range B, grad_output x jj)
    else none
  ⟨grad_input, grad_weight_r, grad_weight_i, grad_weight_j, grad_weight_k, grad_bias⟩

/-! ### Shape-level model of the rank-3 backward path

`torch.mm` accepts only rank-2 arguments, and `tensor.sum(0)` removes
only the leading axis; these shape functions record that behaviour for
the claims about rank-3 saved contexts. -/

/-- The shape `torch.mm` produces, or `none` when it raises (non-matrix
argument or mismatched inner dimensions). -/
def mmShape : List ℕ → List ℕ → Option (List ℕ)
  | [n, m], [m2, p] => if m = m2 then some [n, p] else none
  | _, _ => none

/-- Shape of `grad_output.mm(cat_kernels_4_quaternion_T)` in the
backward pass: the transposed encoding is `[4G, 4F]`. -/
def grad_input_shape (gradOutShape : List ℕ) (F G : ℕ) : Option (List ℕ) :=
  mmShape gradOutShape [4 * G, 4 * F]

/-- Shape of `tensor.sum(0)`: drop the leading axis. -/
def sum_dim0_shape : List ℕ → Option (List ℕ)
  | [] => none
  | _ :: rest => some rest

/-- Shape of `tensor.squeeze(0)`: drop the leading axis only when it has
size 1. -/
def squeeze0_shape : List ℕ → List ℕ
  | 1 :: rest => rest
  | s => s

/-- Shape of `grad_output.sum(0).squeeze(0)`, the code's grad_bias. -/
def grad_bias_shape (gradOutShape : List ℕ) : Option (List ℕ) :=
  (sum_dim0_shape gradOutShape).map squeeze0_shape

/-- Values of `grad_output.sum(0)` on a rank-3 grad_output of batch size
`B`: only the batch axis is reduced, leaving a rank-2 `[S, 4G]` result. -/
def grad_bias_dim3 (B : ℕ) (g : Mat3) : Mat :=
  fun s j => ∑ x ∈ Finset.range B, g x s j

/-- Claim C2: for a rank-2 saved context with the input flag set, the
returned grad_input is grad_output times the transpose of the code's
forward block-encoding matrix rebuilt from the same four weight blocks
(first conjunct, for every context and grad_output); but for a rank-3
saved context the code's `grad_output.mm(...)` rejects the 3-D tensor,
so no grad_input is produced at all (second conjunct: grad_output shape
`[1, 2, 4]` with `F = G = 1`). -/
theorem backward_grad_input_transpose :
    (∀ (F G B : ℕ) (input r i j k : Mat) (n2 n3 n4 n5 n6 : Bool)
      (grad_output : Mat),
      (QuaternionLinearFunction.backward F G B input r i j k
          ⟨true, n2, n3, n4, n5, n6⟩ grad_output).grad_input =
        some (fun b p => ∑ q ∈ Finset.range (4 * G),
          grad_output b q * cat_kernels_4_quaternion F G r i j k p q)) ∧
    grad_input_shape [1, 2, 4] 1 1 = none := by
  exact ⟨fun F G B input r i j k n2 n3 n4 n5 n6 grad_output => rfl, rfl⟩

/-- The concrete rank-3 grad_output exhibiting the missing sequence-axis
sum: batch size 1, sequence length 2, entries 1 and 2 at feature 0. -/
def gBiasEx : Mat3 := fun b s j =>
  if b = 0 ∧ s = 0 ∧ j = 0 then 1 else if b = 0 ∧ s = 1 ∧ j = 0 then 2 else 0

/-- Claim C4: on a rank-2 context the returned grad_bias is grad_output
summed over the batch axis (first conjunct), but on a rank-3 context the
code still sums only axis 0: the result keeps the sequence axis (shape
`[2, 4]` for grad_output shape `[1, 2, 4]`, not the bias's `[4]`), and
neither of its rows equals the claimed batch-and-sequence sum (value 3 at
feature 0, against the code's 1 and 2). -/
theorem grad_bias_missing_sequence_sum :
    (∀ (F G B : ℕ) (input r i j k : Mat) (n1 n2 n3 n4 n5 : Bool)
      (grad_output : Mat),
      (QuaternionLinearFunction.backward F G B input r i j k
          ⟨n1, n2, n3, n4, n5, true⟩ grad_output).grad_bias =
        some (fun jj => ∑ x ∈ Finset.range B, grad_output x jj)) ∧
    grad_bias_shape [1, 2, 4] = some [2, 4] ∧
    grad_bias_dim3 1 gBiasEx 0 0 ≠
      ∑ x ∈ Finset.range 1, ∑ s ∈ Finset.range 2, gBiasEx x s 0 ∧
    grad_bias_dim3 1 gBiasEx 1 0 ≠
      ∑ x ∈ Finset.range 1, ∑ s ∈ Finset.range 2, gBiasEx x s 0 := by
  refine ⟨fun F G B input r i j k n1 n2 n3 n4 n5 grad_output => rfl, rfl, ?_, ?_⟩ <;>
    norm_num [grad_bias_dim3, gBiasEx, Finset.sum_range_succ]

/-- Claim C5 (counterexample): the per-slot iff fails in both directions.
With only the i_weight flag set (slot 2), the i_weight gradient is `None`
even though its own flag is set; with only the r_weight flag set
(slot 1), the i_weight gradient is a tensor even though its own flag is
unset — the code gates all four weight gradients on
`needs_input_grad[1]`. -/
theorem backward_per_slot_flags_cex :
    (QuaternionLinearFunction.backward 1 1 1 inEx2 wEx wEx wEx wEx
        ⟨false, false, true, false, false, false⟩ inEx2).grad_weight_i = none ∧
    (QuaternionLinearFunction.backward 1 1 1 inEx2 wEx wEx wEx wEx
        ⟨false, true, false, false, false, false⟩ inEx2).grad_weight_i.isSome
      = true := ⟨rfl, rfl⟩

/-- Claim C5 (amended): grad_input is present iff the input flag is set
and grad_bias iff the bias flag is set, but all four weight-block
gradients are present iff the *r_weight* flag (needs_input_grad[1]) is
set, regardless of the i/j/k flags. -/
theorem backward_per_slot_flags (F G B : ℕ) (input r i j k : Mat)
    (needs : NeedsGrad) (grad_output : Mat) :
    (QuaternionLinearFunction.backward F G B input r i j k needs
        grad_output).grad_input.isSome = needs.input ∧
    (QuaternionLinearFunction.backward F G B input r i j k needs
        grad_output).grad_weight_r.isSome = needs.r_weight ∧
    (QuaternionLinearFunction.backward F G B input r i j k needs
        grad_output).grad_weight_i.isSome = needs.r_weight ∧
    (QuaternionLinearFunction.backward F G B input r i j k needs
        grad_output).grad_weight_j.isSome = needs.r_weight ∧
    (QuaternionLinearFunction.backward F G B input r i j k needs
        grad_output).grad_weight_k.isSome = needs.r_weight ∧
    (QuaternionLinearFunction.backward F G B input r i j k needs
        grad_output).grad_bias.isSome = needs.bias := by
  obtain ⟨a, b, c, d, e, f⟩ := needs
  cases a <;> cases b <;> cases f <;>
    simp [QuaternionLinearFunction.backward]

/-! ### Checked entry points (every operation begins with `check_input`) -/

/-- `get_r` including its leading `check_input` call, for a rank-2 input
of shape `[B, N]`. -/
def get_r_checked (B N : ℕ) (t : Mat) : Except String Mat :=
  (check_input [B, N]).map fun _ => get_r N t

/-- `get_i` including its leading `check_input` call. -/
def get_i_checked (B N : ℕ) (t : Mat) : Except String Mat :=
  (check_input [B, N]).map fun _ => get_i N t

/-- `get_j` including its leading `check_input` call. -/
def get_j_checked (B N : ℕ) (t : Mat) : Except String Mat :=
  (check_input [B, N]).map fun _ => get_j N t

/-- `get_k` including its leading `check_input` call. -/
def get_k_checked (B N : ℕ) (t : Mat) : Except String Mat :=
  (check_input [B, N]).map fun _ => get_k N t

/-- `get_modulus` (default `vector_form=False`) including its leading
`check_input` call. -/
def get_modulus_checked (sq : ℚ → ℚ) (B N : ℕ) (t : Mat) : Except String Vec :=
  (check_input [B, N]).map fun _ => get_modulus sq B N t

/-- `get_normalized` including its leading `check_input` call. -/
def get_normalized_checked (sq : ℚ → ℚ) (B N : ℕ) (t : Mat) (eps : ℚ) :
    Except String Mat :=
  (check_input [B, N]).map fun _ => get_normalized sq B N t eps

/-- `QuaternionLinearFunction.forward` on a rank-2 input including its
leading `check_input` call (the kernel construction and the matrix
product only happen after validation). -/
def QuaternionLinearFunction.forward2_checked (B N F G : ℕ)
    (input r_weight i_weight j_weight k_weight : Mat) (bias : Option Vec) :
    Except String Mat :=
  (check_input [B, N]).map fun _ =>
    QuaternionLinearFunction.forward2 F G input r_weight i_weight j_weight k_weight bias

/-- `check_input` on a two-element shape reduces to the divisibility
test alone (the rank test passes). -/
theorem check_input_rank2 (B N : ℕ) :
    check_input [B, N] =
      if N % 4 ≠ 0 then
        Except.error ("Quaternion Tensors must be divisible by 4." ++
          " input.size()[1] = " ++ toString N)
      else Except.ok () := rfl

/-- Claim C7: `check_input` accepts exactly the tensors of rank 2 or 3
whose last axis is divisible by 4 (first conjunct, over arbitrary
shapes); on a bad rank-2 shape every operation that calls it first — the
component getters, `get_modulus`, `get_normalized` and the quaternion
forward — returns that error before touching any data (the result is
independent of the tensor contents); and on a good shape each passes the
validation with no effect. -/
theorem check_input_shape_guard :
    (∀ shape : List ℕ, check_input shape = Except.ok () ↔
      ((shape.length = 2 ∨ shape.length = 3) ∧ shape.getLastD 0 % 4 = 0)) ∧
    (∀ (B N : ℕ) (t u : Mat), N % 4 ≠ 0 →
      (∃ e, get_r_checked B N t = Except.error e) ∧
      get_r_checked B N t = get_r_checked B N u ∧
      get_i_checked B N t = get_i_checked B N u ∧
      get_j_checked B N t = get_j_checked B N u ∧
      get_k_checked B N t = get_k_checked B N u ∧
      (∀ (sq : ℚ → ℚ) (eps : ℚ),
        get_modulus_checked sq B N t = get_modulus_checked sq B N u ∧
        get_normalized_checked sq B N t eps = get_normalized_checked sq B N u eps) ∧
      (∀ (F G : ℕ) (r i j k : Mat) (bias : Option Vec),
        (∃ e, QuaternionLinearFunction.forward2_checked B N F G t r i j k bias =
          Except.error e) ∧
        QuaternionLinearFunction.forward2_checked B N F G t r i j k bias =
          QuaternionLinearFunction.forward2_checked B N F G u r i j k bias)) ∧
    (∀ (B N : ℕ) (t : Mat), N % 4 = 0 →
      get_r_checked B N t = Except.ok (get_r N t) ∧
      (∀ (F G : ℕ) (r i j k : Mat) (bias : Option Vec),
        QuaternionLinearFunction.forward2_checked B N F G t r i j k bias =
          Except.ok (QuaternionLinearFunction.forward2 F G t r i j k bias))) := by
  refine ⟨?_, ?_, ?_⟩
  · intro shape
    by_cases h1 : shape.length = 2 ∨ shape.length = 3
    · by_cases h2 : shape.getLastD 0 % 4 = 0
      · have hok : check_input shape = Except.ok () := by
          simp only [check_input]
          rw [if_neg (not_not_intro h1), if_neg (not_not_intro h2)]
        have h2' : shape.getLast?.getD 0 % 4 = 0 := by
          simpa [List.getLastD_eq_getLast?] using h2
        simp [hok, h1, h2']
      · have herr : ∃ e, check_input shape = Except.error e := by
          refine ⟨"Quaternion Tensors must be divisible by 4." ++
            " input.size()[1] = " ++ toString (shape.getLastD 0), ?_⟩
          simp only [check_input]
          rw [if_neg (not_not_intro h1), if_pos h2]
        obtain ⟨e, he⟩ := herr
        have h2' : ¬ shape.getLast?.getD 0 % 4 = 0 := by
          simpa [List.getLastD_eq_getLast?] using h2
        simp [he, h2']
    · have herr : ∃ e, check_input shape = Except.error e := by
        refine ⟨"quaternion linear accepts only input of dimension 2 or 3." ++
          " input.dim = " ++ toString shape.length, ?_⟩
        simp only [check_input]
        rw [if_pos h1]
      obtain ⟨e, he⟩ := herr
      simp [he, h1]
  · intro B N t u hmod
    have hE : check_input [B, N] =
        Except.error ("Quaternion Tensors must be divisible by 4." ++
          " input.size()[1] = " ++ toString N) := by
      rw [check_input_rank2]; exact if_pos hmod
    refine ⟨⟨"Quaternion Tensors must be divisible by 4." ++
        " input.size()[1] = " ++ toString N, ?_⟩, ?_, ?_, ?_, ?_,
      fun sq eps => ⟨?_, ?_⟩,
      fun F G r i j k bias => ⟨⟨"Quaternion Tensors must be divisible by 4." ++
        " input.size()[1] = " ++ toString N, ?_⟩, ?_⟩⟩ <;>
      simp [get_r_checked, get_i_checked, get_j_checked, get_k_checked,
        get_modulus_checked, get_normalized_checked,
        QuaternionLinearFunction.forward2_checked, hE, Except.map]
  · intro B N t hmod
    have hO : check_input [B, N] = Except.ok () := by
      rw [check_input_rank2, if_neg (by omega)]
    refine ⟨?_, fun F G r i j k bias => ?_⟩ <;>
      simp [get_r_checked, QuaternionLinearFunction.forward2_checked, hO, Except.map]

/-- Witness for C7: last-axis length 6 is rejected with an error
independent of the data, and shape `[1, 8]` passes. -/
theorem check_input_shape_guard_witness :
    (∃ e, get_r_checked 1 6 inEx2 = Except.error e) ∧
      check_input [1, 8] = Except.ok () :=
  ⟨(check_input_shape_guard.2.1 1 6 inEx2 inEx2 (by norm_num)).1,
    (check_input_shape_guard.1 [1, 8]).mpr (by norm_num)⟩

/-! ### Weight initializers (quaternionops.py lines 290-358)

The numpy global generator (`np.random.*`) and `RandomState` objects are
modelled as explicit states: a value stream plus a position.  A state is
threaded through every draw, and the initializers return the advanced
*global* state (in Python the global generator mutates in place between
two successive calls).  `np.sqrt`, `np.cos`, `np.sin` and `np.pi` are
host-library primitives, bundled in `NumLib`. -/

/-- A random generator state: the sample stream and the next position. -/
structure Rng where
  stream : ℕ → ℚ
  pos : ℕ

/-- `uniform(low, high, size)`: the next `size` stream values mapped
affinely into `[low, high]`, advancing the position. -/
def Rng.uniform (g : Rng) (low high : ℚ) (size : ℕ) : Vec × Rng :=
  (fun idx => low + (high - low) * g.stream (g.pos + idx),
    ⟨g.stream, g.pos + size⟩)

/-- The numpy numeric primitives used by the initializers. -/
structure NumLib where
  sqrt : ℚ → ℚ
  cos : ℚ → ℚ
  sin : ℚ → ℚ
  pi : ℚ

/-- `v.reshape(kernel_shape)` for `kernel_shape = (in_features,
out_features)` in row-major order. -/
def reshape2 (out_features : ℕ) (v : Vec) : Mat :=
  fun a b => v (a * out_features + b)

/-- `unitary_init(in_features, out_features, rng, criterion)`: note that
all four sample vectors are drawn from the *global* `np.random` state and
the `rng` argument is never read (exactly as in the source); each
quadruple is normalized by its quaternion norm plus `0.0001`, reshaped,
and scaled by the criterion-dependent `s`.  Returns the result together
with the advanced global state. -/
def unitary_init (lib : NumLib) (in_features out_features : ℕ)
    (np_random : Rng) (rng : Rng) (criterion : String) :
    Except String (Mat × Mat × Mat × Mat) × Rng :=
  let s_result : Except String ℚ :=
    if criterion = "glorot" then
      Except.ok (1 / lib.sqrt (2 * ((in_features : ℚ) + (out_features : ℚ))))
    else if criterion = "he" then
      Except.ok (1 / lib.sqrt (2 * (in_features : ℚ)))
    else Except.error ("Invalid criterion: " ++ criterion)
  match s_result with
  | Except.error e => (Except.error e, np_random)
  | Except.ok s =>
    let number_of_weights := in_features * out_features
    let (v_r, g1) := np_random.uniform 0 1 number_of_weights
    let (v_i, g2) := g1.uniform 0 1 number_of_weights
    let (v_j, g3) := g2.uniform 0 1 number_of_weights
    let (v_k, g4) := g3.uniform 0 1 number_of_weights
    let norm := fun idx =>
      lib.sqrt (v_r idx ^ 2 + v_i idx ^ 2 + v_j idx ^ 2 + v_k idx ^ 2) + 1 / 10000
    let v_r2 := reshape2 out_features fun idx => v_r idx / norm idx
    let v_i2 := reshape2 out_features fun idx => v_i idx / norm idx
    let v_j2 := reshape2 out_features fun idx => v_j idx / norm idx
    let v_k2 := reshape2 out_features fun idx => v_k idx / norm idx
    (Except.ok (fun a b => v_r2 a b * s, fun a b => v_i2 a b * s,
      fun a b => v_j2 a b * s, fun a b => v_k2 a b * s), g4)

/-- `quaternion_init(in_features, out_features, rng, criterion)`: the
source rebinds `rng = RandomState(123)`, discarding the caller's
generator (`randomState` maps a seed to a fresh generator state); the
three imaginary sample vectors are drawn from the *global* `np.random`
state, the modulus and phase from the reseeded local generator.  Returns
the result together with the advanced global state. -/
def quaternion_init (lib : NumLib) (in_features out_features : ℕ)
    (np_random : Rng) (randomState : ℕ → Rng) (rng : Rng)
    (criterion : String) : Except String (Mat × Mat × Mat × Mat) × Rng :=
  let s_result : Except String ℚ :=
    if criterion = "glorot" then
      Except.ok (1 / lib.sqrt (2 * ((in_features : ℚ) + (out_features : ℚ))))
    else if criterion = "he" then
      Except.ok (1 / lib.sqrt (2 * (in_features : ℚ)))
    else Except.error ("Invalid criterion: " ++ criterion)
  match s_result with
  | Except.error e => (Except.error e, np_random)
  | Except.ok s =>
    let rng := randomState 123
    let number_of_weights := in_features * out_features
    let (v_i, g1) := np_random.uniform 0 1 number_of_weights
    let (v_j, g2) := g1.uniform 0 1 number_of_weights
    let (v_k, g3) := g2.uniform 0 1 number_of_weights
    let norm := fun idx =>
      lib.sqrt (v_i idx ^ 2 + v_j idx ^ 2 + v_k idx ^ 2) + 1 / 10000
    let v_i2 := reshape2 out_features fun idx => v_i idx / norm idx
    let v_j2 := reshape2 out_features fun idx => v_j idx / norm idx
    let v_k2 := reshape2 out_features fun idx => v_k idx / norm idx
    let (modulus_flat, rng1) := rng.uniform (-s) s number_of_weights
    let modulus := reshape2 out_features modulus_flat
    let (phase_flat, _) := rng1.uniform (-lib.pi) lib.pi number_of_weights
    let phase := reshape2 out_features phase_flat
    (Except.ok (fun a b => modulus a b * lib.cos (phase a b),
      fun a b => modulus a b * v_i2 a b * lib.sin (phase a b),
      fun a b => modulus a b * v_j2 a b * lib.sin (phase a b),
      fun a b => modulus a b * v_k2 a b * lib.sin (phase a b)), g3)

/-- Concrete numeric primitives for the counterexample runs. -/
def libEx : NumLib := ⟨fun x => x, fun x => x, fun x => x, 3⟩

/-- Concrete global-generator stream: 1 on the first four positions,
then 2. -/
def gEx : Rng := ⟨fun n => if n < 4 then 1 else 2, 0⟩

/-- The caller-supplied (and ignored) seeded generator. -/
def rngArgEx : Rng := ⟨fun _ => 0, 0⟩

/-- A `RandomState` constructor for the counterexample: every seed gives
the constant-1 stream. -/
def randomStateEx : ℕ → Rng := fun _ => ⟨fun _ => 1, 0⟩

/-- Claim C8: the initializers do not draw from the caller-supplied rng.
First two conjuncts: replacing the supplied `rng` by any other generator
never changes either initializer's output (the argument is dead).  Last
two conjuncts: two successive calls with identical arguments — same
shapes, same criterion, same supplied rng — return different weights,
because the draws come from the global numpy state, which has advanced in
between (`unitary_init`: weight_r(0,0) differs; `quaternion_init`:
weight_i(0,0) differs even though the reseeded `RandomState(123)` modulus
and phase repeat exactly). -/
theorem initializers_ignore_seeded_rng :
    (∀ (lib : NumLib) (inF outF : ℕ) (g rng rng' : Rng) (c : String),
      unitary_init lib inF outF g rng c = unitary_init lib inF outF g rng' c) ∧
    (∀ (lib : NumLib) (inF outF : ℕ) (g : Rng) (rs : ℕ → Rng)
      (rng rng' : Rng) (c : String),
      quaternion_init lib inF outF g rs rng c =
        quaternion_init lib inF outF g rs rng' c) ∧
    ((unitary_init libEx 1 1 gEx rngArgEx "glorot").1.toOption.map
        (fun w => w.1 0 0) ≠
      (unitary_init libEx 1 1
          (unitary_init libEx 1 1 gEx rngArgEx "glorot").2 rngArgEx
          "glorot").1.toOption.map (fun w => w.1 0 0)) ∧
    ((quaternion_init libEx 1 1 gEx randomStateEx rngArgEx "glorot").1.toOption.map
        (fun w => w.2.1 0 0) ≠
      (quaternion_init libEx 1 1
          (quaternion_init libEx 1 1 gEx randomStateEx rngArgEx "glorot").2
          randomStateEx rngArgEx "glorot").1.toOption.map
        (fun w => w.2.1 0 0)) := by
  refine ⟨fun lib inF outF g rng rng' c => rfl,
    fun lib inF outF g rs rng rng' c => rfl, ?_, ?_⟩ <;>
    norm_num [unitary_init, quaternion_init, Rng.uniform, reshape2, libEx,
      gEx, rngArgEx, randomStateEx, Except.toOption, Option.map]
